import Mathlib

/-!
Verification of the ARTify image-adjustment pipeline and animation renderer.

The Python sources under `src/ARTify/ui/` drive all pixel work through the
Pillow imaging library (`Image.blend`, `Image.point`, `ImageOps`,
`ImageEnhance`, `Image.crop`/`paste`) and NumPy.  The definitions below embed
those operations faithfully:

* 8-bit channel values are natural numbers; every C-level `UINT8` cast is
  modelled by reduction modulo 256, every C float-to-int cast by truncation
  toward zero.
* Library float arithmetic is modelled over `ℚ`.  Where the *double rounding
  itself* is observable in an integer result (the before/after split position
  `int(width * (i / 100.0))`), IEEE-754 binary64 round-to-nearest-even is
  modelled exactly by `roundDouble`.
* `Image.blend` follows Pillow `Blend.c`: exact copies at alpha 0 and 1, plain
  truncation for 0 < alpha < 1, and a clipped extrapolation branch otherwise.
-/

set_option maxRecDepth 40000

set_option allowUnsafeReducibility true in
attribute [semireducible] Rat.mul Rat.add Rat.sub Rat.inv Rat.ofScientific

namespace ARTify

/-- An 8-bit RGB pixel (the workspace editor converts every image to "RGB"). -/
structure Pix where
  r : ℕ
  g : ℕ
  b : ℕ
deriving DecidableEq, Repr

/-- An 8-bit RGBA pixel (the gallery animation exporters convert to "RGBA"). -/
structure PixA where
  r : ℕ
  g : ℕ
  b : ℕ
  a : ℕ
deriving DecidableEq, Repr

/-- An image: fixed dimensions plus a pixel lookup.  Only coordinates with
`x < width` and `y < height` are meaningful; operations never read outside. -/
structure Img (π : Type) where
  width : ℕ
  height : ℕ
  px : ℕ → ℕ → π

/-- Both images have the same dimensions (the caller contract of the spec). -/
def SameSize {π : Type} (a b : Img π) : Prop :=
  a.width = b.width ∧ a.height = b.height

instance {π : Type} (a b : Img π) : Decidable (SameSize a b) := by
  unfold SameSize; infer_instance

/-- Pixel-identity: same dimensions and equal pixels at every in-bounds
coordinate. -/
def ImgEq {π : Type} (a b : Img π) : Prop :=
  a.width = b.width ∧ a.height = b.height ∧
    ∀ x, x < a.width → ∀ y, y < a.height → a.px x y = b.px x y

instance {π : Type} [DecidableEq π] (a b : Img π) : Decidable (ImgEq a b) := by
  unfold ImgEq; infer_instance

/-- Truncation toward zero, the C `(int)` cast applied to a float value. -/
def qtrunc (q : ℚ) : ℤ :=
  if q < 0 then -⌊-q⌋ else ⌊q⌋

/-- The C `(UINT8)` cast of an integer: reduction modulo 256. -/
def u8cast (z : ℤ) : ℕ :=
  (z % 256).toNat

/-- NumPy `np.clip(v, 0, 255)` on an integer. -/
def clip8i (z : ℤ) : ℕ :=
  (min 255 (max 0 z)).toNat

/-- Pillow `Filter.c` / `convert.c` `clip8`: clamp a float to [0,255] and
truncate. -/
def clip8f (s : ℚ) : ℕ :=
  if s ≤ 0 then 0 else if 255 ≤ s then 255 else (qtrunc s).toNat

/-- One channel of Pillow `Blend.c` for an alpha that is neither 0 nor 1:
plain truncation when `0 ≤ alpha ≤ 1`, clipped extrapolation otherwise. -/
def blendChan (a b : ℕ) (α : ℚ) : ℕ :=
  if 0 ≤ α ∧ α ≤ 1 then
    u8cast (qtrunc ((a : ℚ) + α * ((b : ℚ) - (a : ℚ))))
  else
    let temp : ℚ := (a : ℚ) + α * ((b : ℚ) - (a : ℚ))
    if temp ≤ 0 then 0 else if 255 ≤ temp then 255 else u8cast (qtrunc temp)

/-- `Blend.c` applied to an RGB pixel. -/
def blendPix (p q : Pix) (α : ℚ) : Pix :=
  ⟨blendChan p.r q.r α, blendChan p.g q.g α, blendChan p.b q.b α⟩

/-- `Blend.c` applied to an RGBA pixel (all four bands are interpolated). -/
def blendPixA (p q : PixA) (α : ℚ) : PixA :=
  ⟨blendChan p.r q.r α, blendChan p.g q.g α,
   blendChan p.b q.b α, blendChan p.a q.a α⟩

/-- `Image.blend(a, b, alpha)` on RGB images, following Pillow `Blend.c`:
alpha 0 returns a copy of the first image, alpha 1 a copy of the second,
otherwise the images are interpolated bandwise. -/
def blendImage (a b : Img Pix) (α : ℚ) : Img Pix :=
  if α = 0 then a
  else if α = 1 then b
  else ⟨a.width, a.height, fun x y => blendPix (a.px x y) (b.px x y) α⟩

/-- `Image.blend(a, b, alpha)` on RGBA images. -/
def blendImageA (a b : Img PixA) (α : ℚ) : Img PixA :=
  if α = 0 then a
  else if α = 1 then b
  else ⟨a.width, a.height, fun x y => blendPixA (a.px x y) (b.px x y) α⟩

/-- The transition animation of `export_animation_gif` /
`export_animation_video` (`gallery_page.py`): frame `i` of `range(101)` is
`Image.blend(original, styled, i / 100.0)`. -/
def framesTransition (a b : Img PixA) : List (Img PixA) :=
  (List.range 101).map fun (i : ℕ) => blendImageA a b ((i : ℚ) / 100)

/-- Fuel-based binary logarithm (structural recursion, so that the kernel can
evaluate it; `Nat.log2` itself is defined by well-founded recursion). -/
def natLog2Aux : ℕ → ℕ → ℕ
  | 0, _ => 0
  | fuel + 1, n => if 2 ≤ n then natLog2Aux fuel (n / 2) + 1 else 0

/-- `⌊log₂ n⌋` for naturals (0 at 0 and 1). -/
def natLog2 (n : ℕ) : ℕ :=
  natLog2Aux n n

/-- Smallest `k` with `r ≤ 2 ^ k`, for rationals `r ≥ 1`. -/
def ceilLog2 (r : ℚ) : ℕ :=
  if ((2 : ℚ) ^ natLog2 (⌊r⌋).toNat) = r then natLog2 (⌊r⌋).toNat
  else natLog2 (⌊r⌋).toNat + 1

/-- The binary exponent `⌊log₂ q⌋` of a positive rational. -/
def ratExp (q : ℚ) : ℤ :=
  if 1 ≤ q then (natLog2 (⌊q⌋).toNat : ℤ) else -(ceilLog2 q⁻¹ : ℤ)

/-- Round a rational to the nearest integer, ties to even. -/
def rdRound (m : ℚ) : ℤ :=
  if m - (⌊m⌋ : ℚ) < 1 / 2 then ⌊m⌋
  else if 1 / 2 < m - (⌊m⌋ : ℚ) then ⌊m⌋ + 1
  else if ⌊m⌋ % 2 = 0 then ⌊m⌋ else ⌊m⌋ + 1

/-- Round a positive rational to 53 significant binary digits, nearest, ties
to even: the value an IEEE-754 binary64 (Python float) stores.  Overflow and
subnormals are irrelevant at the magnitudes that occur here. -/
def roundPos (q : ℚ) : ℚ :=
  (rdRound (q * (2 : ℚ) ^ ((52 : ℤ) - ratExp q)) : ℚ) *
    (2 : ℚ) ^ (ratExp q - 52)

/-- IEEE-754 binary64 rounding of an exact rational value. -/
def roundDouble (q : ℚ) : ℚ :=
  if q = 0 then 0 else if q < 0 then -roundPos (-q) else roundPos q

/-- The before/after split position `int(width * (i / 100.0))` of
`export_animation_gif` / `export_animation_video`: both the division and the
multiplication round to binary64, then the `int` cast truncates.  (This is
not `⌊width * i / 100⌋`: e.g. `int(100 * (29 / 100.0)) = 28`.) -/
def splitPos (w i : ℕ) : ℕ :=
  (qtrunc (roundDouble ((w : ℚ) * roundDouble ((i : ℚ) / 100)))).toNat

/-- `Image.crop((l, t, l + cw, t + ch))` on an RGBA image: a `cw × ch` image;
areas outside the source are filled with zeros (transparent black). -/
def cropA (img : Img PixA) (l t : ℤ) (cw ch : ℕ) : Img PixA :=
  ⟨cw, ch, fun u v =>
    if 0 ≤ l + u ∧ l + u < img.width ∧ 0 ≤ t + v ∧ t + v < img.height then
      img.px (l + u).toNat (t + v).toNat
    else ⟨0, 0, 0, 0⟩⟩

/-- `dst.paste(src, (ox, oy))`: pixels inside the pasted region come from
`src`, the rest keep `dst`. -/
def pasteA (dst src : Img PixA) (ox oy : ℕ) : Img PixA :=
  ⟨dst.width, dst.height, fun x y =>
    if ox ≤ x ∧ x < ox + src.width ∧ oy ≤ y ∧ y < oy + src.height then
      src.px (x - ox) (y - oy)
    else dst.px x y⟩

/-- One before/after frame (`gallery_page.py` lines 730-737): a copy of the
styled image `b` onto which `a.crop((split, 0, width, a.height))` is pasted at
`(split, 0)`, where `split = int(width * (i / 100.0))`.  So columns left of
the split show `b` and columns from the split on show `a`. -/
def beforeAfterFrame (a b : Img PixA) (i : ℕ) : Img PixA :=
  let s := splitPos b.width i
  pasteA b (cropA a (s : ℤ) 0 (b.width - s) a.height) s 0

/-- Map a function over every pixel of an image. -/
def imgMap {π ρ : Type} (f : π → ρ) (img : Img π) : Img ρ :=
  ⟨img.width, img.height, fun x y => f (img.px x y)⟩

/-- All channels are 8-bit values (≤ 255), as Pillow guarantees for its
images; our pixel model uses unbounded naturals, so theorems that rely on
the 8-bit range assume this. -/
def ValidPix (p : Pix) : Prop :=
  p.r ≤ 255 ∧ p.g ≤ 255 ∧ p.b ≤ 255

instance (p : Pix) : Decidable (ValidPix p) := by
  unfold ValidPix; infer_instance

/-- Every in-bounds pixel of the image is an 8-bit pixel. -/
def ValidImg (img : Img Pix) : Prop :=
  ∀ x, x < img.width → ∀ y, y < img.height → ValidPix (img.px x y)

instance (img : Img Pix) : Decidable (ValidImg img) := by
  unfold ValidImg; infer_instance

/-- A gray pixel: all three channels equal. -/
def GrayPix (p : Pix) : Prop :=
  p.r = p.g ∧ p.g = p.b

instance (p : Pix) : Decidable (GrayPix p) := by
  unfold GrayPix; infer_instance

/-- Every in-bounds pixel of the image is gray. -/
def GrayImg (img : Img Pix) : Prop :=
  ∀ x, x < img.width → ∀ y, y < img.height → GrayPix (img.px x y)

instance (img : Img Pix) : Decidable (GrayImg img) := by
  unfold GrayImg; infer_instance

/-- `ImageOps.invert`: lookup table `255 - i` on every channel
(`apply_invert`, `workspace_page.py`). -/
def invertPix (p : Pix) : Pix :=
  ⟨255 - p.r, 255 - p.g, 255 - p.b⟩

/-- `apply_invert` on a whole image. -/
def invertImg (img : Img Pix) : Img Pix :=
  imgMap invertPix img

/-- One channel of `ImageOps.solarize(image, threshold)`: the lookup table is
`i if i < threshold else 255 - i`, so exactly the values at or above the
threshold are inverted. -/
def solarizeChan (t c : ℕ) : ℕ :=
  if c < t then c else 255 - c

/-- `apply_solarize` on one pixel. -/
def solarizePix (t : ℕ) (p : Pix) : Pix :=
  ⟨solarizeChan t p.r, solarizeChan t p.g, solarizeChan t p.b⟩

/-- `apply_solarize(image, threshold)` (`workspace_page.py` lines 869-882). -/
def solarizeImg (t : ℕ) (img : Img Pix) : Img Pix :=
  imgMap (solarizePix t) img

/-- The temperature adjustment of `apply_all_adjustments` (lines 744-751):
`shift = slider - 50`; if `shift > 0` the red channel becomes
`min(255, r + shift)`, otherwise the blue channel becomes
`min(255, b - shift)`; green is never touched. -/
def temperaturePix (slider : ℕ) (p : Pix) : Pix :=
  let shift : ℤ := (slider : ℤ) - 50
  if 0 < shift then ⟨(min 255 ((p.r : ℤ) + shift)).toNat, p.g, p.b⟩
  else ⟨p.r, p.g, (min 255 ((p.b : ℤ) - shift)).toNat⟩

/-- The temperature stage on a whole image (split, per-channel point maps,
merge). -/
def temperatureStage (slider : ℕ) (img : Img Pix) : Img Pix :=
  imgMap (temperaturePix slider) img

/-- `gamma_value = max(0.1, slider / 50.0)` (line 726): the effective gamma
that is inverted by the gamma stage. -/
def effectiveGamma (slider : ℕ) : ℚ :=
  max (1 / 10) ((slider : ℚ) / 50)

/-- The slider reset performed on every style change
(`update_image_display`, lines 645-658). -/
def resetSliderValue (name : String) : ℕ :=
  if name = "Transition" then 100
  else if name = "Posterize" then 1
  else if name = "Solarize" ∨ name = "Paper Texture" then 0
  else if name = "Noise" then 10
  else if name = "Tint" then 30
  else 50

/-- The default each slider is constructed with (lines 441, 478-484 and
509-517 of `workspace_page.py`). -/
def constructionDefault (name : String) : ℕ :=
  if name = "Transition" then 100
  else if name = "Blur" then 50
  else if name = "Posterize" then 1
  else if name = "Solarize" then 0
  else if name = "Noise" then 5
  else if name = "Tint" then 30
  else if name = "Paper Texture" then 0
  else 50

/-- All slider names of the workspace page. -/
def sliderNames : List String :=
  ["Transition", "Blur", "Posterize", "Solarize", "Noise", "Tint",
   "Paper Texture", "Exposure", "Gamma", "Brightness", "Contrast",
   "Saturation", "Hue", "Temperature", "Sharpness"]

/-- The frame dropdown entries (`workspace_page.py` line 546). -/
inductive FrameStyle where
  | noFrame
  | black
  | white
  | gold
  | metallic
deriving DecidableEq

/-- The frame color names mapped by `apply_basic_frame` (lines 987-995):
Black, White, Gold `#FFD700`, Metallic `#C0C0C0`. -/
def frameColorPix : FrameStyle → Pix
  | .noFrame => ⟨0, 0, 0⟩
  | .black => ⟨0, 0, 0⟩
  | .white => ⟨255, 255, 255⟩
  | .gold => ⟨255, 215, 0⟩
  | .metallic => ⟨192, 192, 192⟩

/-- `Image.crop` on an RGB image: out-of-bounds areas are filled with black
(zeros). -/
def cropRGB (img : Img Pix) (l t : ℤ) (cw ch : ℕ) : Img Pix :=
  ⟨cw, ch, fun u v =>
    if 0 ≤ l + u ∧ l + u < img.width ∧ 0 ≤ t + v ∧ t + v < img.height then
      img.px (l + u).toNat (t + v).toNat
    else ⟨0, 0, 0⟩⟩

/-- `dst.paste(src, (ox, oy))` on RGB images. -/
def pasteRGB (dst src : Img Pix) (ox oy : ℕ) : Img Pix :=
  ⟨dst.width, dst.height, fun x y =>
    if ox ≤ x ∧ x < ox + src.width ∧ oy ≤ y ∧ y < oy + src.height then
      src.px (x - ox) (y - oy)
    else dst.px x y⟩

/-- `Image.new("RGB", (w, h), color)`. -/
def solidImg (w h : ℕ) (c : Pix) : Img Pix :=
  ⟨w, h, fun _ _ => c⟩

/-- The horizontal crop origin of `apply_basic_frame`:
`left = (image.width - inner_width) // 2` with Python floor division. -/
def frameLeft (img : Img Pix) : ℤ :=
  ((img.width : ℤ) - 760).fdiv 2

/-- The vertical crop origin of `apply_basic_frame`:
`top = (image.height - inner_height) // 2`. -/
def frameTop (img : Img Pix) : ℤ :=
  ((img.height : ℤ) - 760).fdiv 2

/-- `apply_basic_frame(image, color)` (lines 973-1013): center-crop to the
760×760 inner area (canvas 800 minus twice the frame width 20) and paste at
(20, 20) onto an 800×800 canvas of the frame color. -/
def applyBasicFrame (img : Img Pix) (c : Pix) : Img Pix :=
  pasteRGB (solidImg 800 800 c) (cropRGB img (frameLeft img) (frameTop img) 760 760) 20 20

/-- `apply_frame` (lines 1029-1048): named styles are framed, anything else
returns the image unchanged. -/
def applyFrame (sty : FrameStyle) (img : Img Pix) : Img Pix :=
  match sty with
  | .noFrame => img
  | s => applyBasicFrame img (frameColorPix s)

/-- C `round()` (half away from zero) for the nonnegative values that occur
in the HSV conversion. -/
def roundHU (x : ℚ) : ℤ :=
  ⌊x + 1 / 2⌋

/-- `ImageEnhance.Brightness`: the degenerate image is
`Image.new(mode, size, 0)` (black) and `enhance(f)` is
`Image.blend(degenerate, image, f)`. -/
def enhanceBrightness (f : ℚ) (img : Img Pix) : Img Pix :=
  blendImage (solidImg img.width img.height ⟨0, 0, 0⟩) img f

/-- Pillow RGB→L conversion (`convert.c`, ITU-R 601-2):
`(r*19595 + g*38470 + b*7471 + 0x8000) >> 16`. -/
def grayL (p : Pix) : ℕ :=
  (19595 * p.r + 38470 * p.g + 7471 * p.b + 32768) / 65536

/-- `image.convert("L").convert("RGB")` (`apply_grayscale` and the
`ImageEnhance.Color` degenerate): the L value replicated on all channels. -/
def grayscaleImg (img : Img Pix) : Img Pix :=
  imgMap (fun p => ⟨grayL p, grayL p, grayL p⟩) img

/-- Sum of the L values of all pixels (`ImageStat.Stat(...).mean` numerator). -/
def sumL (img : Img Pix) : ℕ :=
  ((List.range img.height).map (fun y =>
    ((List.range img.width).map (fun x => grayL (img.px x y))).sum)).sum

/-- `int(ImageStat.Stat(image.convert("L")).mean[0] + 0.5)`: the mean L value
rounded half-up (the `ImageEnhance.Contrast` degenerate gray level). -/
def meanL (img : Img Pix) : ℕ :=
  (⌊(sumL img : ℚ) / ((img.width * img.height : ℕ) : ℚ) + 1 / 2⌋).toNat

/-- `ImageEnhance.Contrast`: blend with a solid image of the mean gray. -/
def enhanceContrast (f : ℚ) (img : Img Pix) : Img Pix :=
  blendImage (solidImg img.width img.height ⟨meanL img, meanL img, meanL img⟩) img f

/-- `ImageEnhance.Color` (saturation): blend with the grayscale version. -/
def enhanceColor (f : ℚ) (img : Img Pix) : Img Pix :=
  blendImage (grayscaleImg img) img f

/-- One channel of the gamma lookup table
`255 * ((p / 255) ** inv_gamma)` (line 728), where `inv_gamma` is the
reciprocal of the clamped gamma and `powFn` models the Python float `**`
operator.  The result goes through the C int cast and `UINT8` store of
`Image.point`. -/
def gammaChan (powFn : ℚ → ℚ → ℚ) (γ : ℚ) (c : ℕ) : ℕ :=
  u8cast (qtrunc (255 * powFn ((c : ℚ) / 255) (1 / γ)))

/-- The gamma stage of `apply_all_adjustments` (lines 726-728). -/
def gammaStage (powFn : ℚ → ℚ → ℚ) (slider : ℕ) (img : Img Pix) : Img Pix :=
  imgMap (fun p =>
    ⟨gammaChan powFn (effectiveGamma slider) p.r,
     gammaChan powFn (effectiveGamma slider) p.g,
     gammaChan powFn (effectiveGamma slider) p.b⟩) img

/-- Pillow RGB→HSV (`convert.c`, following colorsys; float math over ℚ, the
C int cast truncates).  Gray pixels (max = min) take the exact
`(h, s) = (0, 0)` path with no float arithmetic at all. -/
def rgb2hsv (p : Pix) : ℕ × ℕ × ℕ :=
  let mx := max p.r (max p.g p.b)
  let mn := min p.r (min p.g p.b)
  if mx = mn then (0, 0, mx)
  else
    let cr : ℚ := (mx : ℚ) - mn
    let sq : ℚ := cr / mx
    let rc : ℚ := ((mx : ℚ) - p.r) / cr
    let gc : ℚ := ((mx : ℚ) - p.g) / cr
    let bc : ℚ := ((mx : ℚ) - p.b) / cr
    let hraw : ℚ :=
      if mx = p.r then bc - gc
      else if mx = p.g then 2 + rc - bc
      else 4 + gc - rc
    let hq : ℚ := (hraw / 6 + 1) - ⌊hraw / 6 + 1⌋
    (clip8i (qtrunc (hq * 255)), clip8i (qtrunc (sq * 255)), mx)

/-- Pillow HSV→RGB (`convert.c`, following colorsys; `round` is the C
half-away-from-zero rounding).  Saturation 0 returns the gray `(v, v, v)`
exactly. -/
def hsv2rgb (t : ℕ × ℕ × ℕ) : Pix :=
  match t with
  | (h, s, v) =>
    if s = 0 then ⟨v, v, v⟩
    else
      let i : ℤ := ⌊((h : ℚ) * 6) / 255⌋
      let f : ℚ := ((h : ℚ) * 6) / 255 - i
      let fs : ℚ := (s : ℚ) / 255
      let pp := clip8i (roundHU ((v : ℚ) * (1 - fs)))
      let qq := clip8i (roundHU ((v : ℚ) * (1 - fs * f)))
      let tt := clip8i (roundHU ((v : ℚ) * (1 - fs * (1 - f))))
      match (i % 6).toNat with
      | 0 => ⟨v, tt, pp⟩
      | 1 => ⟨qq, v, pp⟩
      | 2 => ⟨pp, v, tt⟩
      | 3 => ⟨pp, qq, v⟩
      | 4 => ⟨tt, pp, v⟩
      | _ => ⟨v, pp, qq⟩

/-- The hue point map `(p + hue_shift) % 256` (line 742; Python float `%`,
then the `Image.point` int cast truncates). -/
def hueLUT (shift : ℚ) (h : ℕ) : ℕ :=
  (qtrunc (((h : ℚ) + shift) - 256 * ⌊((h : ℚ) + shift) / 256⌋)).toNat

/-- The hue stage (lines 739-743): convert to HSV, shift the hue channel by
`(slider - 50) * 3.6`, convert back to RGB. -/
def hueStage (slider : ℕ) (img : Img Pix) : Img Pix :=
  imgMap (fun p =>
    match rgb2hsv p with
    | (h, s, v) => hsv2rgb (hueLUT (((slider : ℚ) - 50) * (36 / 10)) h, s, v)) img

/-- One channel of the `ImageFilter.SMOOTH` 3×3 convolution: kernel
`(1,1,1,1,5,1,1,1,1)` with divisor 13 and offset 0, clamped to [0,255] and
truncated (`Filter.c` `clip8`). -/
def smoothChanAt (img : Img Pix) (ch : Pix → ℕ) (x y : ℕ) : ℕ :=
  clip8f (((ch (img.px (x - 1) (y - 1)) + ch (img.px x (y - 1)) +
      ch (img.px (x + 1) (y - 1)) + ch (img.px (x - 1) y) +
      5 * ch (img.px x y) + ch (img.px (x + 1) y) +
      ch (img.px (x - 1) (y + 1)) + ch (img.px x (y + 1)) +
      ch (img.px (x + 1) (y + 1)) : ℕ) : ℚ) / 13)

/-- `image.filter(ImageFilter.SMOOTH)`: images smaller than the kernel are
copied unchanged, the one-pixel border is copied from the input, interior
pixels are convolved. -/
def smoothFilter (img : Img Pix) : Img Pix :=
  if img.width < 3 ∨ img.height < 3 then img
  else
    ⟨img.width, img.height, fun x y =>
      if 1 ≤ x ∧ x + 1 < img.width ∧ 1 ≤ y ∧ y + 1 < img.height then
        ⟨smoothChanAt img Pix.r x y, smoothChanAt img Pix.g x y,
         smoothChanAt img Pix.b x y⟩
      else img.px x y⟩

/-- `ImageEnhance.Sharpness(...).enhance(slider / 10.0 + 1)` (line 753-754):
the degenerate image is the SMOOTH-filtered image and `enhance` blends it
with the original at the given factor.  Note the factor at the neutral
slider value 50 is 6, not 1. -/
def sharpnessStage (slider : ℕ) (img : Img Pix) : Img Pix :=
  blendImage (smoothFilter img) img ((slider : ℚ) / 10 + 1)

/-- The EDITING section of `apply_all_adjustments` (lines 721-754): exposure,
gamma, brightness, contrast, saturation, hue, temperature, sharpness, in
this order.  `powFn` models the Python float `**` used by the gamma lookup
table (exact for exponent 1, which is the only case the theorems use). -/
def toneChain (powFn : ℚ → ℚ → ℚ)
    (exposure gamma brightness contrast saturation hue temperature sharpness : ℕ)
    (img : Img Pix) : Img Pix :=
  sharpnessStage sharpness
    (temperatureStage temperature
      (hueStage hue
        (enhanceColor ((saturation : ℚ) / 50)
          (enhanceContrast ((contrast : ℚ) / 50)
            (enhanceBrightness ((brightness : ℚ) / 50)
              (gammaStage powFn gamma
                (enhanceBrightness ((exposure : ℚ) / 50) img)))))))

/-- The Python float `**` at exponent 1.0 returns its base exactly
(IEEE-754 `pow(x, 1.0) = x`); this is the instance of `powFn` the concrete
evaluations use, faithful because the neutral gamma slider gives exponent 1. -/
def powId : ℚ → ℚ → ℚ :=
  fun x _ => x

/-- Concrete 3×3 gray image (center 121 on a 100 background) on which the
factor-6 sharpness stage visibly changes the image. -/
def exTone : Img Pix :=
  ⟨3, 3, fun x y =>
    if x = 1 ∧ y = 1 then ⟨121, 121, 121⟩ else ⟨100, 100, 100⟩⟩

/-- `apply_sepia` (lines 773-799): per pixel,
`tr = int(0.393 r + 0.769 g + 0.189 b)` etc., each channel then clamped with
`min(·, 255)` (no lower clamp is needed: the terms are nonnegative). -/
def sepiaPix (p : Pix) : Pix :=
  ⟨min (qtrunc ((393 / 1000 : ℚ) * p.r + (769 / 1000) * p.g + (189 / 1000) * p.b)).toNat 255,
   min (qtrunc ((349 / 1000 : ℚ) * p.r + (686 / 1000) * p.g + (168 / 1000) * p.b)).toNat 255,
   min (qtrunc ((272 / 1000 : ℚ) * p.r + (534 / 1000) * p.g + (131 / 1000) * p.b)).toNat 255⟩

/-- `apply_colorize`: `ImageOps.colorize(grayscale, black="blue",
white="yellow")`; the generated lookup tables map L value v to
`(v, v, 255 - v)`. -/
def colorizePix (p : Pix) : Pix :=
  ⟨grayL p, grayL p, 255 - grayL p⟩

/-- One channel of `ImageOps.posterize(image, bits)`: keep the top `bits`
bits (`i & ~(2^(8-bits) - 1)`). -/
def posterizeChan (bits c : ℕ) : ℕ :=
  c / 2 ^ (8 - bits) * 2 ^ (8 - bits)

/-- `apply_posterize` on one pixel. -/
def posterizePix (bits : ℕ) (p : Pix) : Pix :=
  ⟨posterizeChan bits p.r, posterizeChan bits p.g, posterizeChan bits p.b⟩

/-- The C `int16_t` wraparound that NumPy applies in
`noise.astype(np.int16)` and in the `uint8 + int16` sum. -/
def int16cast (z : ℤ) : ℤ :=
  ((z + 32768) % 65536) - 32768

/-- One channel of `apply_noise` (lines 905-925): the Gaussian draw is
`σ · gv` with `σ = intensity * 255` and `gv` a standard-normal draw from the
global NumPy generator (an explicit input here); it is truncated to int16,
added to the pixel in int16 arithmetic, and clipped to [0, 255]. -/
def noiseChan (intensity : ℚ) (c : ℕ) (gv : ℚ) : ℕ :=
  clip8i (int16cast ((c : ℤ) + int16cast (qtrunc (intensity * 255 * gv))))

/-- `apply_noise(image, intensity)` with the random draws `g` passed
explicitly (one standard-normal triple per pixel). -/
def applyNoise (img : Img Pix) (intensity : ℚ) (g : ℕ → ℕ → ℚ × ℚ × ℚ) : Img Pix :=
  ⟨img.width, img.height, fun x y =>
    ⟨noiseChan intensity (img.px x y).r (g x y).1,
     noiseChan intensity (img.px x y).g (g x y).2.1,
     noiseChan intensity (img.px x y).b (g x y).2.2⟩⟩

/-- `apply_tint` (lines 928-950): blend a solid overlay of the tint color
over the image at the given opacity. -/
def applyTint (img : Img Pix) (α : ℚ) (c : Pix) : Img Pix :=
  blendImage img (solidImg img.width img.height c) α

/-- One channel of the `generate_paper_texture` noise pattern
(lines 953-970): `np.random.normal(127, 127·intensity)` truncated and
wrapped by `astype(np.uint8)`. -/
def paperTexturePix (intensity : ℚ) (gv : ℚ) : ℕ :=
  u8cast (qtrunc (127 + 127 * intensity * gv))

/-- `generate_paper_texture(size, intensity)`: the random uint8 pattern,
Gaussian-blurred with radius 1 (the blur is the library call, passed in as
`blurFn`). -/
def generatePaperTexture (w h : ℕ) (intensity : ℚ)
    (blurFn : Img Pix → ℚ → Img Pix) (g : ℕ → ℕ → ℚ × ℚ × ℚ) : Img Pix :=
  blurFn
    ⟨w, h, fun x y =>
      ⟨paperTexturePix intensity (g x y).1,
       paperTexturePix intensity (g x y).2.1,
       paperTexturePix intensity (g x y).2.2⟩⟩ 1

/-- The full parameter record read by `apply_all_adjustments`: the slider
values, the filter checkboxes, the tint color and the frame selection. -/
structure Params where
  transition : ℕ
  invert : Bool
  grayscale : Bool
  solarizeOn : Bool
  solarize : ℕ
  sepia : Bool
  colorize : Bool
  posterizeOn : Bool
  posterize : ℕ
  noiseOn : Bool
  noise : ℕ
  tintOn : Bool
  tint : ℕ
  tintColor : Pix
  blurOn : Bool
  blur : ℕ
  textureOn : Bool
  paperTexture : ℕ
  exposure : ℕ
  gamma : ℕ
  brightness : ℕ
  contrast : ℕ
  saturation : ℕ
  hue : ℕ
  temperature : ℕ
  sharpness : ℕ
  frame : FrameStyle

/-- The BLENDING step and the filters before noise (lines 681-707): blend,
then invert, grayscale, solarize, sepia, colorize and posterize, each only
if its checkbox is checked. -/
def preNoiseFilters (P : Params) (baseline styled : Img Pix) : Img Pix :=
  let blended := blendImage baseline styled ((P.transition : ℚ) / 100)
  let a1 := if P.invert then invertImg blended else blended
  let a2 := if P.grayscale then grayscaleImg a1 else a1
  let a3 := if P.solarizeOn then solarizeImg P.solarize a2 else a2
  let a4 := if P.sepia then imgMap sepiaPix a3 else a3
  let a5 := if P.colorize then imgMap colorizePix a4 else a4
  if P.posterizeOn then imgMap (posterizePix P.posterize) a5 else a5

/-- The noise filter (lines 709-711): applied only if checked, reading the
global random generator. -/
def noiseStage (P : Params) (g : ℕ → ℕ → ℚ × ℚ × ℚ) (img : Img Pix) : Img Pix :=
  if P.noiseOn then applyNoise img ((P.noise : ℚ) / 100) g else img

/-- The filters after noise (lines 713-719): tint, then blur. -/
def postNoiseFilters (P : Params) (blurFn : Img Pix → ℚ → Img Pix)
    (img : Img Pix) : Img Pix :=
  let a8 := if P.tintOn then applyTint img ((P.tint : ℚ) / 100) P.tintColor else img
  if P.blurOn then blurFn a8 ((P.blur : ℚ) / 5) else a8

/-- The paper-texture overlay (lines 756-761): if the checkbox is on and the
intensity `slider/100` is positive, blend a freshly generated random texture
over the image at that intensity. -/
def textureStage (P : Params) (blurFn : Img Pix → ℚ → Img Pix)
    (g : ℕ → ℕ → ℚ × ℚ × ℚ) (img : Img Pix) : Img Pix :=
  if P.textureOn then
    if 0 < P.paperTexture then
      blendImage img
        (generatePaperTexture img.width img.height ((P.paperTexture : ℚ) / 100) blurFn g)
        ((P.paperTexture : ℚ) / 100)
    else img
  else img

/-- `apply_all_adjustments` (`workspace_page.py` lines 670-764): blend, the
nine optional filters in their fixed order, the eight tone adjustments, the
optional paper-texture overlay, and the frame.  `powFn` models the float
`**` of the gamma stage, `blurFn` the `ImageFilter.GaussianBlur` library
call, and `gN`/`gT` the draws taken from the global NumPy random generator
by the noise filter and the paper texture — the hidden state that the code
reads through `np.random.normal`. -/
def adjust (powFn : ℚ → ℚ → ℚ) (blurFn : Img Pix → ℚ → Img Pix)
    (baseline styled : Img Pix) (P : Params)
    (gN gT : ℕ → ℕ → ℚ × ℚ × ℚ) : Img Pix :=
  applyFrame P.frame
    (textureStage P blurFn gT
      (toneChain powFn P.exposure P.gamma P.brightness P.contrast
        P.saturation P.hue P.temperature P.sharpness
        (postNoiseFilters P blurFn
          (noiseStage P gN
            (preNoiseFilters P baseline styled)))))

/-- An arbitrary instantiation of the Gaussian-blur library parameter; the
concrete evaluations below disable every stage that would invoke it. -/
def blurDummy : Img Pix → ℚ → Img Pix :=
  fun img _ => img

/-- The all-zero random stream (a possible state of the global generator). -/
def gZero : ℕ → ℕ → ℚ × ℚ × ℚ :=
  fun _ _ => (0, 0, 0)

/-- A random stream whose draws are all 4 (four standard deviations — a
possible, if unlikely, state of the global generator). -/
def gFour : ℕ → ℕ → ℚ × ℚ × ℚ :=
  fun _ _ => (4, 4, 4)

/-- Concrete 1×1 mid-gray image for the pipeline evaluations. -/
def exBase : Img Pix :=
  ⟨1, 1, fun _ _ => ⟨100, 100, 100⟩⟩

/-- Parameters with only the noise filter enabled (slider 10, i.e. intensity
0.1), everything else at its neutral/disabled state. -/
def exParamsNoise : Params :=
  ⟨100, false, false, false, 0, false, false, false, 1, true, 10,
   false, 30, ⟨255, 105, 180⟩, false, 50, false, 0,
   50, 50, 50, 50, 50, 50, 50, 50, FrameStyle.noFrame⟩

/-- Parameters with every filter disabled. -/
def exParamsPlain : Params :=
  ⟨100, false, false, false, 0, false, false, false, 1, false, 5,
   false, 30, ⟨255, 105, 180⟩, false, 50, false, 0,
   50, 50, 50, 50, 50, 50, 50, 50, FrameStyle.noFrame⟩

/-- Concrete 1×1 image with a channel at 255, used for the solarize
counterexample. -/
def exSol : Img Pix :=
  ⟨1, 1, fun _ _ => ⟨255, 10, 20⟩⟩

/-- Concrete 2×2 image (strictly smaller than the 760×760 inner area), used
in the frame witness. -/
def exSmall : Img Pix :=
  ⟨2, 2, fun x y => ⟨50 + x, 60 + y, 70⟩⟩

/-- Concrete 1×1 all-black RGB image, used in witnesses. -/
def exBlack : Img Pix :=
  ⟨1, 1, fun _ _ => ⟨0, 0, 0⟩⟩

/-- Concrete 1×1 all-white RGB image, used in witnesses. -/
def exWhite : Img Pix :=
  ⟨1, 1, fun _ _ => ⟨255, 255, 255⟩⟩

/-- Concrete 1×1 RGBA image, used in witnesses. -/
def exA1 : Img PixA :=
  ⟨1, 1, fun _ _ => ⟨10, 20, 30, 255⟩⟩

/-- A second concrete 1×1 RGBA image, used in witnesses. -/
def exB1 : Img PixA :=
  ⟨1, 1, fun _ _ => ⟨200, 100, 50, 255⟩⟩

/-- Concrete 1×1 RGBA dummy image (a `getD` default). -/
def exD1 : Img PixA :=
  ⟨1, 1, fun _ _ => ⟨0, 0, 0, 0⟩⟩

/-- C7: For every pair of equal-sized base and styled images, the blend stage
(`apply_all_adjustments`, `workspace_page.py` lines 677-685) with blend
fraction 0 (slider 0, `Image.blend` alpha `0/100`) reproduces the base image
exactly, and with blend fraction 100 (alpha `100/100 = 1`) reproduces the
styled image exactly. -/
theorem C7_blend_endpoints (base styled : Img Pix) (_hs : SameSize base styled) :
    blendImage base styled ((0 : ℚ) / 100) = base ∧
      blendImage base styled ((100 : ℚ) / 100) = styled := by
  constructor <;> norm_num [blendImage]

/-- Witness for C7 at concrete 1×1 images. -/
theorem C7_blend_endpoints_witness :
    SameSize exBlack exWhite ∧
      (blendImage exBlack exWhite ((0 : ℚ) / 100) = exBlack ∧
        blendImage exBlack exWhite ((100 : ℚ) / 100) = exWhite) :=
  ⟨by decide, C7_blend_endpoints exBlack exWhite (by decide)⟩

/-- C8: In Transition mode the renderer produces exactly 101 frames; frame `i`
is the bandwise linear blend of the two (equal-sized) inputs at fraction
`i/100`; frame 0 is a pixel-exact copy of image A (the original) and frame 100
a pixel-exact copy of image B (the styled image).  The default value `d`
supplied to `List.getD` is irrelevant on indices 0..100. -/
theorem C8_transition_frames (a b : Img PixA) (_hs : SameSize a b) (d : Img PixA) :
    (framesTransition a b).length = 101 ∧
      (∀ i, i ≤ 100 →
        (framesTransition a b).getD i d = blendImageA a b ((i : ℚ) / 100)) ∧
      (framesTransition a b).getD 0 d = a ∧
      (framesTransition a b).getD 100 d = b := by
  have hlen : (framesTransition a b).length = 101 := by
    unfold framesTransition
    rw [List.length_map, List.length_range]
  have hget : ∀ i, i ≤ 100 →
      (framesTransition a b).getD i d = blendImageA a b ((i : ℚ) / 100) := by
    intro i hi
    have hi101 : i < (framesTransition a b).length := by omega
    rw [List.getD_eq_getElem _ _ hi101]
    simp only [framesTransition, List.getElem_map, List.getElem_range]
  refine ⟨hlen, hget, ?_, ?_⟩
  · rw [hget 0 (by omega)]
    norm_num [blendImageA]
  · rw [hget 100 (by omega)]
    norm_num [blendImageA]

theorem natLog2Aux_eq (fuel n : ℕ) (h : n ≤ fuel) : natLog2Aux fuel n = Nat.log2 n := by
  induction fuel generalizing n with
  | zero =>
    have hn : n = 0 := by omega
    subst hn
    rw [Nat.log2]
    rfl
  | succ fuel ih =>
    rw [Nat.log2]
    unfold natLog2Aux
    by_cases h2 : 2 ≤ n
    · rw [if_pos h2, if_pos h2, ih (n / 2) (by omega)]
    · rw [if_neg h2, if_neg h2]

theorem natLog2_eq (n : ℕ) : natLog2 n = Nat.log 2 n := by
  rw [natLog2, natLog2Aux_eq n n le_rfl, Nat.log2_eq_log_two]

theorem rdRound_intCast (n : ℤ) : rdRound (n : ℚ) = n := by
  unfold rdRound
  rw [Int.floor_intCast]
  norm_num

theorem ratExp_natCast (n : ℕ) (h0 : n ≠ 0) : ratExp (n : ℚ) = Nat.log 2 n := by
  unfold ratExp
  rw [if_pos (by exact_mod_cast Nat.one_le_iff_ne_zero.mpr h0), Int.floor_natCast,
    Int.toNat_natCast, natLog2_eq]

theorem roundPos_natCast (n : ℕ) (h0 : n ≠ 0) (h : n < 2 ^ 53) :
    roundPos (n : ℚ) = n := by
  unfold roundPos
  have he : ratExp ((n : ℚ)) = Nat.log 2 n := ratExp_natCast n h0
  have hlog : Nat.log 2 n < 53 := Nat.log_lt_of_lt_pow h0 h
  set k : ℕ := 52 - Nat.log 2 n with hk
  have hk2 : (52 : ℤ) - ratExp (n : ℚ) = (k : ℤ) := by
    rw [he]; omega
  have hk3 : ratExp ((n : ℚ)) - 52 = -(k : ℤ) := by
    rw [he]; omega
  rw [hk2, hk3, zpow_natCast, zpow_neg, zpow_natCast]
  have hm : (n : ℚ) * (2 : ℚ) ^ k = (((n * 2 ^ k : ℕ) : ℤ) : ℚ) := by
    push_cast; ring
  rw [hm, rdRound_intCast]
  have h2 : ((2 : ℚ) ^ k) ≠ 0 := by positivity
  push_cast
  field_simp

theorem roundDouble_natCast (n : ℕ) (h : n < 2 ^ 53) : roundDouble (n : ℚ) = n := by
  rcases Nat.eq_zero_or_pos n with h0 | h0
  · subst h0; simp [roundDouble]
  · unfold roundDouble
    have h1 : ((n : ℚ)) ≠ 0 := Nat.cast_ne_zero.mpr (by omega)
    have h2 : ¬ ((n : ℚ) < 0) := not_lt.mpr (by positivity)
    rw [if_neg h1, if_neg h2, roundPos_natCast n (by omega) h]

theorem splitPos_zero (w : ℕ) : splitPos w 0 = 0 := by
  unfold splitPos
  norm_num [roundDouble, qtrunc]

theorem splitPos_hundred (w : ℕ) (h : w < 2 ^ 53) : splitPos w 100 = w := by
  unfold splitPos
  have h1 : ((100 : ℕ) : ℚ) / 100 = ((1 : ℕ) : ℚ) := by norm_num
  rw [h1, roundDouble_natCast 1 (by norm_num), Nat.cast_one, mul_one,
    roundDouble_natCast w h]
  unfold qtrunc
  rw [if_neg (not_lt.mpr (by positivity)), Int.floor_natCast]
  exact Int.toNat_natCast w

theorem pasteA_px (dst src : Img PixA) (ox oy x y : ℕ) :
    (pasteA dst src ox oy).px x y =
      if ox ≤ x ∧ x < ox + src.width ∧ oy ≤ y ∧ y < oy + src.height then
        src.px (x - ox) (y - oy)
      else dst.px x y := rfl

theorem cropA_px (img : Img PixA) (l t : ℤ) (cw ch : ℕ) (u v : ℕ) :
    (cropA img l t cw ch).px u v =
      if 0 ≤ l + u ∧ l + u < img.width ∧ 0 ≤ t + v ∧ t + v < img.height then
        img.px (l + u).toNat (t + v).toNat
      else ⟨0, 0, 0, 0⟩ := rfl

/-- C1 counterexample: with A the first input (the original image, as in the
Transition-mode naming of the spec) and B the second (the styled image), the
claim predicts frame 0 equals image B exactly; on concrete 1×1 images the
code produces image A instead (the paste at split 0 covers the whole frame
with the original). -/
theorem C1_beforeAfter_counterexample :
    ¬ ImgEq (beforeAfterFrame exA1 exB1 0) exB1 := by decide

/-- C1 (amended): frame `i` is image B (styled) with the vertical region
`[split, width)` — not `[0, split)` — replaced by the corresponding region of
image A (original), where `split = int(width * (i / 100.0))` under binary64
arithmetic; hence frame 0 equals image A exactly and frame 100 equals image B
exactly (the latter for any realistic width, `width < 2^53`). -/
theorem C1_beforeAfter (a b : Img PixA) (hs : SameSize a b)
    (hw : b.width < 2 ^ 53) :
    (∀ i x y, x < b.width → y < b.height →
        (beforeAfterFrame a b i).px x y =
          if x < splitPos b.width i then b.px x y else a.px x y) ∧
      ImgEq (beforeAfterFrame a b 0) a ∧
      ImgEq (beforeAfterFrame a b 100) b := by
  obtain ⟨hws, hhs⟩ := hs
  have hpx : ∀ i x y, x < b.width → y < b.height →
      (beforeAfterFrame a b i).px x y =
        if x < splitPos b.width i then b.px x y else a.px x y := by
    intro i x y hx hy
    unfold beforeAfterFrame
    rw [pasteA_px]
    set s := splitPos b.width i with hsdef
    by_cases hxs : x < s
    · rw [if_neg (by omega), if_pos hxs]
    · have h1 : s ≤ x := le_of_not_lt hxs
      rw [if_pos (by simp only [cropA]; omega), if_neg hxs, cropA_px]
      have hxa : x < a.width := by omega
      have hya : y < a.height := by omega
      rw [if_pos (by omega)]
      have e1 : (((s : ℤ)) + ((x - s : ℕ) : ℤ)).toNat = x := by omega
      have e2 : (((0 : ℤ)) + ((y - 0 : ℕ) : ℤ)).toNat = y := by omega
      rw [e1, e2]
  refine ⟨hpx, ⟨?_, ?_, ?_⟩, ⟨?_, ?_, ?_⟩⟩
  · exact hws.symm
  · exact hhs.symm
  · intro x hx y hy
    have hx2 : x < b.width := hx
    have hy2 : y < b.height := hy
    rw [hpx 0 x y hx2 hy2, splitPos_zero, if_neg (by omega)]
  · rfl
  · rfl
  · intro x hx y hy
    have hx2 : x < b.width := hx
    have hy2 : y < b.height := hy
    rw [hpx 100 x y hx2 hy2, splitPos_hundred b.width hw, if_pos hx2]

/-- Witness for C1 at concrete 1×1 RGBA images. -/
theorem C1_beforeAfter_witness :
    (SameSize exA1 exB1 ∧ exB1.width < 2 ^ 53) ∧
      (ImgEq (beforeAfterFrame exA1 exB1 0) exA1 ∧
        ImgEq (beforeAfterFrame exA1 exB1 100) exB1) :=
  ⟨⟨by decide, by decide⟩,
    (C1_beforeAfter exA1 exB1 (by decide) (by decide)).2⟩

/-- Witness for C8 at concrete 1×1 RGBA images. -/
theorem C8_transition_frames_witness :
    SameSize exA1 exB1 ∧
      ((framesTransition exA1 exB1).length = 101 ∧
        (framesTransition exA1 exB1).getD 0 exD1 = exA1 ∧
        (framesTransition exA1 exB1).getD 100 exD1 = exB1) :=
  ⟨by decide,
    (C8_transition_frames exA1 exB1 (by decide) exD1).1,
    (C8_transition_frames exA1 exB1 (by decide) exD1).2.2⟩

/-- C9: The gamma stage never divides by zero: the effective gamma
`max(0.1, slider / 50.0)` is at least 1/10 for every slider value — in
particular nonzero, so its reciprocal `inv_gamma` is well defined — and at
slider 0 it is exactly 1/10. -/
theorem C9_gamma_no_div_zero :
    (∀ s : ℕ, (1 : ℚ) / 10 ≤ effectiveGamma s ∧ effectiveGamma s ≠ 0) ∧
      effectiveGamma 0 = 1 / 10 := by
  constructor
  · intro s
    refine ⟨le_max_left _ _, ?_⟩
    have h1 : (0 : ℚ) < 1 / 10 := by norm_num
    have h2 : (0 : ℚ) < effectiveGamma s := lt_of_lt_of_le h1 (le_max_left _ _)
    exact ne_of_gt h2
  · unfold effectiveGamma
    norm_num

/-- C4 (code bug): on a style change `update_image_display` resets the Noise
slider to 10, while the slider is constructed with default 5 (range 0-50)
and the reset loop is documented as restoring default values; every other
slider is reset to exactly its construction default. -/
theorem C4_noise_reset_bug :
    resetSliderValue "Noise" = 10 ∧ constructionDefault "Noise" = 5 ∧
      ∀ n ∈ sliderNames, n ≠ "Noise" → resetSliderValue n = constructionDefault n := by
  refine ⟨by decide, by decide, ?_⟩
  decide

/-- C5 counterexample: solarize with threshold 255 is not a no-op: a pixel
with a channel at 255 has that channel inverted to 0 (the lookup table
inverts values `≥ 255`, i.e. exactly 255). -/
theorem C5_solarize_counterexample :
    ¬ ImgEq (solarizeImg 255 exSol) exSol := by decide

/-- C5 (amended): solarize inverts exactly the channel values at or above
the threshold; threshold 0 inverts the entire image; threshold 255 is not a
no-op in general — it maps channel value 255 to 0 and keeps 0..254, so it is
a no-op exactly on (8-bit) images in which no channel equals 255. -/
theorem C5_solarize (t : ℕ) (img : Img Pix) (hv : ValidImg img) :
    (∀ x, x < img.width → ∀ y, y < img.height →
        (solarizeImg t img).px x y =
          ⟨if (img.px x y).r < t then (img.px x y).r else 255 - (img.px x y).r,
           if (img.px x y).g < t then (img.px x y).g else 255 - (img.px x y).g,
           if (img.px x y).b < t then (img.px x y).b else 255 - (img.px x y).b⟩) ∧
      ImgEq (solarizeImg 0 img) (invertImg img) ∧
      (ImgEq (solarizeImg 255 img) img ↔
        ∀ x, x < img.width → ∀ y, y < img.height →
          (img.px x y).r ≠ 255 ∧ (img.px x y).g ≠ 255 ∧ (img.px x y).b ≠ 255) := by
  refine ⟨?_, ⟨rfl, rfl, ?_⟩, ?_, ?_⟩
  · intro x hx y hy
    rfl
  · intro x hx y hy
    simp [solarizeImg, imgMap, invertImg, solarizePix, invertPix, solarizeChan]
  · intro heq x hx y hy
    obtain ⟨-, -, hpx⟩ := heq
    have h2 : solarizePix 255 (img.px x y) = img.px x y := hpx x hx y hy
    rcases hp : img.px x y with ⟨r, g, b⟩
    rw [hp] at h2
    unfold solarizePix solarizeChan at h2
    rw [Pix.mk.injEq] at h2
    have e1 : (if r < 255 then r else 255 - r) = r := h2.1
    have e2 : (if g < 255 then g else 255 - g) = g := h2.2.1
    have e3 : (if b < 255 then b else 255 - b) = b := h2.2.2
    refine ⟨fun hc => ?_, fun hc => ?_, fun hc => ?_⟩
    · have hc2 : r = 255 := hc
      subst hc2
      norm_num at e1
    · have hc2 : g = 255 := hc
      subst hc2
      norm_num at e2
    · have hc2 : b = 255 := hc
      subst hc2
      norm_num at e3
  · intro hno
    refine ⟨rfl, rfl, ?_⟩
    intro x hx y hy
    obtain ⟨hr, hg, hb⟩ := hv x hx y hy
    obtain ⟨nr, ng, nb⟩ := hno x hx y hy
    show solarizePix 255 (img.px x y) = img.px x y
    rcases hp : img.px x y with ⟨r, g, b⟩
    rw [hp] at hr hg hb nr ng nb
    have hr2 : r ≤ 255 := hr
    have hg2 : g ≤ 255 := hg
    have hb2 : b ≤ 255 := hb
    have nr2 : r ≠ 255 := nr
    have ng2 : g ≠ 255 := ng
    have nb2 : b ≠ 255 := nb
    unfold solarizePix solarizeChan
    rw [if_pos (by omega), if_pos (by omega), if_pos (by omega)]

/-- Witness for C5 at a concrete valid image (threshold 0). -/
theorem C5_solarize_witness :
    ValidImg exSol ∧ ImgEq (solarizeImg 0 exSol) (invertImg exSol) :=
  ⟨by decide, (C5_solarize 0 exSol (by decide)).2.1⟩

/-- C6: the temperature stage shifts only one channel per sign of
`slider - 50`: above 50 the red channel becomes `min(255, r + (slider-50))`
with blue untouched; below 50 the blue channel becomes
`min(255, b - (slider-50))` (`= min(255, b + (50-slider))`) with red
untouched; the green channel is never modified. -/
theorem C6_temperature (slider : ℕ) (img : Img Pix) :
    ∀ x, x < img.width → ∀ y, y < img.height →
      ((temperatureStage slider img).px x y).g = (img.px x y).g ∧
      (50 < slider →
        ((temperatureStage slider img).px x y).r =
            min 255 ((img.px x y).r + (slider - 50)) ∧
          ((temperatureStage slider img).px x y).b = (img.px x y).b) ∧
      (slider < 50 →
        ((temperatureStage slider img).px x y).b =
            min 255 ((img.px x y).b + (50 - slider)) ∧
          ((temperatureStage slider img).px x y).r = (img.px x y).r) := by
  intro x hx y hy
  simp only [temperatureStage, imgMap]
  unfold temperaturePix
  by_cases h : 0 < (slider : ℤ) - 50
  · rw [if_pos h]
    refine ⟨rfl, fun h50 => ⟨?_, rfl⟩, fun h50 => absurd h (by omega)⟩
    show (min 255 (((img.px x y).r : ℤ) + ((slider : ℤ) - 50))).toNat = _
    simp only [min_def]
    split_ifs <;> omega
  · rw [if_neg h]
    refine ⟨rfl, fun h50 => absurd h (by omega), fun h50 => ⟨?_, rfl⟩⟩
    show (min 255 (((img.px x y).b : ℤ) - ((slider : ℤ) - 50))).toNat = _
    simp only [min_def]
    split_ifs <;> omega

/-- Witness for C6 at a concrete image, slider 70 and pixel (0, 0). -/
theorem C6_temperature_witness :
    0 < exBase.width ∧ 0 < exBase.height ∧
      (((temperatureStage 70 exBase).px 0 0).g = (exBase.px 0 0).g ∧
        (50 < 70 →
          ((temperatureStage 70 exBase).px 0 0).r =
              min 255 ((exBase.px 0 0).r + (70 - 50)) ∧
            ((temperatureStage 70 exBase).px 0 0).b = (exBase.px 0 0).b) ∧
        (70 < 50 →
          ((temperatureStage 70 exBase).px 0 0).b =
              min 255 ((exBase.px 0 0).b + (50 - 70)) ∧
            ((temperatureStage 70 exBase).px 0 0).r = (exBase.px 0 0).r)) :=
  ⟨by decide, by decide, C6_temperature 70 exBase 0 (by decide) 0 (by decide)⟩

/-- C10: applying any named frame style returns an 800×800 image; inside the
inner 760×760 area the pixel is taken from the center-cropped input when the
crop coordinate lands inside the input and is black otherwise (never the
frame color), and outside the inner area the pixel is the frame color.  This
holds for every input image, in particular images strictly smaller than
760×760, whose crop origins are negative. -/
theorem C10_basic_frame (img : Img Pix) (sty : FrameStyle)
    (hsty : sty ≠ FrameStyle.noFrame) :
    (applyFrame sty img).width = 800 ∧ (applyFrame sty img).height = 800 ∧
      (∀ x y, 20 ≤ x → x < 780 → 20 ≤ y → y < 780 →
        (applyFrame sty img).px x y =
          if 0 ≤ frameLeft img + (x - 20) ∧ frameLeft img + (x - 20) < img.width ∧
              0 ≤ frameTop img + (y - 20) ∧ frameTop img + (y - 20) < img.height then
            img.px (frameLeft img + (x - 20)).toNat (frameTop img + (y - 20)).toNat
          else ⟨0, 0, 0⟩) ∧
      (∀ x y, x < 800 → y < 800 →
        ¬ (20 ≤ x ∧ x < 780 ∧ 20 ≤ y ∧ y < 780) →
        (applyFrame sty img).px x y = frameColorPix sty) := by
  have hform : applyFrame sty img = applyBasicFrame img (frameColorPix sty) := by
    cases sty
    · exact absurd rfl hsty
    all_goals rfl
  rw [hform]
  refine ⟨rfl, rfl, ?_, ?_⟩
  · intro x y hx1 hx2 hy1 hy2
    show (if 20 ≤ x ∧ x < 20 + 760 ∧ 20 ≤ y ∧ y < 20 + 760 then
        (cropRGB img (frameLeft img) (frameTop img) 760 760).px (x - 20) (y - 20)
      else (solidImg 800 800 (frameColorPix sty)).px x y) = _
    rw [if_pos (by omega)]
    have ex : ((x - 20 : ℕ) : ℤ) = (x : ℤ) - 20 := by omega
    have ey : ((y - 20 : ℕ) : ℤ) = (y : ℤ) - 20 := by omega
    show (if 0 ≤ frameLeft img + ((x - 20 : ℕ) : ℤ) ∧
        frameLeft img + ((x - 20 : ℕ) : ℤ) < img.width ∧
        0 ≤ frameTop img + ((y - 20 : ℕ) : ℤ) ∧
        frameTop img + ((y - 20 : ℕ) : ℤ) < img.height then
      img.px (frameLeft img + ((x - 20 : ℕ) : ℤ)).toNat
        (frameTop img + ((y - 20 : ℕ) : ℤ)).toNat
      else ⟨0, 0, 0⟩) = _
    rw [ex, ey]
  · intro x y hx hy hout
    show (if 20 ≤ x ∧ x < 20 + 760 ∧ 20 ≤ y ∧ y < 20 + 760 then
        (cropRGB img (frameLeft img) (frameTop img) 760 760).px (x - 20) (y - 20)
      else (solidImg 800 800 (frameColorPix sty)).px x y) = frameColorPix sty
    rw [if_neg (by omega)]
    rfl

/-- Witness for C10: the gold frame applied to a concrete 2×2 image. -/
theorem C10_basic_frame_witness :
    FrameStyle.gold ≠ FrameStyle.noFrame ∧
      ((applyFrame FrameStyle.gold exSmall).width = 800 ∧
        (applyFrame FrameStyle.gold exSmall).height = 800) ∧
      (applyFrame FrameStyle.gold exSmall).px 25 25 = ⟨0, 0, 0⟩ ∧
      (applyFrame FrameStyle.gold exSmall).px 5 5 = ⟨255, 215, 0⟩ :=
  ⟨by decide,
    ⟨(C10_basic_frame exSmall FrameStyle.gold (by decide)).1,
      (C10_basic_frame exSmall FrameStyle.gold (by decide)).2.1⟩,
    by decide, by decide⟩

theorem blendImage_one (a b : Img Pix) : blendImage a b 1 = b := by
  unfold blendImage
  norm_num

theorem ImgEq_trans (a b c : Img Pix) (h1 : ImgEq a b) (h2 : ImgEq b c) :
    ImgEq a c := by
  obtain ⟨w1, h1h, p1⟩ := h1
  obtain ⟨w2, h2h, p2⟩ := h2
  exact ⟨w1.trans w2, h1h.trans h2h,
    fun x hx y hy => (p1 x hx y hy).trans (p2 x (by omega) y (by omega))⟩

theorem imgMap_congr (f : Pix → Pix) (a b : Img Pix) (hw : a.width = b.width)
    (hh : a.height = b.height)
    (hp : ∀ x, x < b.width → ∀ y, y < b.height → a.px x y = b.px x y) :
    ImgEq (imgMap f a) (imgMap f b) := by
  refine ⟨hw, hh, ?_⟩
  intro x hx y hy
  have hx2 : x < a.width := hx
  have hy2 : y < a.height := hy
  show f (a.px x y) = f (b.px x y)
  rw [hp x (hw ▸ hx2) y (hh ▸ hy2)]

theorem smoothFilter_width (img : Img Pix) : (smoothFilter img).width = img.width := by
  unfold smoothFilter
  split <;> rfl

theorem smoothFilter_height (img : Img Pix) : (smoothFilter img).height = img.height := by
  unfold smoothFilter
  split <;> rfl

theorem smoothFilter_congr (a b : Img Pix) (hw : a.width = b.width)
    (hh : a.height = b.height)
    (hp : ∀ x, x < b.width → ∀ y, y < b.height → a.px x y = b.px x y) :
    ImgEq (smoothFilter a) (smoothFilter b) := by
  unfold smoothFilter
  by_cases hsmall : b.width < 3 ∨ b.height < 3
  · rw [if_pos (by omega), if_pos hsmall]
    exact ⟨hw, hh, fun x hx y hy => hp x (by omega) y (by omega)⟩
  · rw [if_neg (by omega), if_neg hsmall]
    refine ⟨hw, hh, ?_⟩
    intro x hx y hy
    have hx2 : x < a.width := hx
    have hy2 : y < a.height := hy
    show (if 1 ≤ x ∧ x + 1 < a.width ∧ 1 ≤ y ∧ y + 1 < a.height then
        (⟨smoothChanAt a Pix.r x y, smoothChanAt a Pix.g x y,
          smoothChanAt a Pix.b x y⟩ : Pix)
      else a.px x y) =
      (if 1 ≤ x ∧ x + 1 < b.width ∧ 1 ≤ y ∧ y + 1 < b.height then
        (⟨smoothChanAt b Pix.r x y, smoothChanAt b Pix.g x y,
          smoothChanAt b Pix.b x y⟩ : Pix)
      else b.px x y)
    by_cases hin : 1 ≤ x ∧ x + 1 < b.width ∧ 1 ≤ y ∧ y + 1 < b.height
    · rw [if_pos (by omega), if_pos hin]
      unfold smoothChanAt
      rw [hp (x - 1) (by omega) (y - 1) (by omega),
        hp x (by omega) (y - 1) (by omega),
        hp (x + 1) (by omega) (y - 1) (by omega),
        hp (x - 1) (by omega) y (by omega),
        hp x (by omega) y (by omega),
        hp (x + 1) (by omega) y (by omega),
        hp (x - 1) (by omega) (y + 1) (by omega),
        hp x (by omega) (y + 1) (by omega),
        hp (x + 1) (by omega) (y + 1) (by omega)]
    · rw [if_neg (by omega), if_neg hin]
      exact hp x (by omega) y (by omega)

theorem blendImage_congr (α : ℚ) (a b c d : Img Pix)
    (hab : a.width = b.width ∧ a.height = b.height)
    (hac : ImgEq a c) (hbd : ImgEq b d) :
    ImgEq (blendImage a b α) (blendImage c d α) := by
  unfold blendImage
  by_cases h0 : α = 0
  · rw [if_pos h0, if_pos h0]
    exact hac
  · rw [if_neg h0, if_neg h0]
    by_cases h1 : α = 1
    · rw [if_pos h1, if_pos h1]
      exact hbd
    · rw [if_neg h1, if_neg h1]
      obtain ⟨hacw, hach, hacp⟩ := hac
      obtain ⟨hbdw, hbdh, hbdp⟩ := hbd
      refine ⟨hacw, hach, ?_⟩
      intro x hx y hy
      have hx2 : x < a.width := hx
      have hy2 : y < a.height := hy
      show blendPix (a.px x y) (b.px x y) α = blendPix (c.px x y) (d.px x y) α
      rw [hacp x hx2 y hy2, hbdp x (by omega) y (by omega)]

theorem sharpnessStage_congr (s : ℕ) (a b : Img Pix) (hw : a.width = b.width)
    (hh : a.height = b.height)
    (hp : ∀ x, x < b.width → ∀ y, y < b.height → a.px x y = b.px x y) :
    ImgEq (sharpnessStage s a) (sharpnessStage s b) := by
  unfold sharpnessStage
  apply blendImage_congr
  · exact ⟨smoothFilter_width a, smoothFilter_height a⟩
  · exact smoothFilter_congr a b hw hh hp
  · exact ⟨hw, hh, fun x hx y hy => hp x (hw ▸ hx) y (hh ▸ hy)⟩

theorem gammaChan_one (powFn : ℚ → ℚ → ℚ) (hpow : ∀ x : ℚ, powFn x 1 = x)
    (c : ℕ) (hc : c ≤ 255) : gammaChan powFn (effectiveGamma 50) c = c := by
  unfold gammaChan
  have h1 : effectiveGamma 50 = 1 := by
    unfold effectiveGamma
    rw [show (((50 : ℕ) : ℚ)) / 50 = 1 by norm_num]
    exact max_eq_right (by norm_num)
  rw [h1, show (1 : ℚ) / 1 = 1 by norm_num, hpow]
  have h2 : (255 : ℚ) * ((c : ℚ) / 255) = (c : ℚ) := by
    field_simp
  rw [h2]
  unfold qtrunc
  rw [if_neg (not_lt.mpr (by positivity)), Int.floor_natCast]
  unfold u8cast
  omega

theorem gammaStage_neutral (powFn : ℚ → ℚ → ℚ) (hpow : ∀ x : ℚ, powFn x 1 = x)
    (img : Img Pix) (hv : ValidImg img) :
    ImgEq (gammaStage powFn 50 img) img := by
  refine ⟨rfl, rfl, ?_⟩
  intro x hx y hy
  have hx2 : x < img.width := hx
  have hy2 : y < img.height := hy
  have hvp := hv x hx2 y hy2
  show (⟨gammaChan powFn (effectiveGamma 50) (img.px x y).r,
      gammaChan powFn (effectiveGamma 50) (img.px x y).g,
      gammaChan powFn (effectiveGamma 50) (img.px x y).b⟩ : Pix) = img.px x y
  rcases hp : img.px x y with ⟨r, g, b⟩
  rw [hp] at hvp
  have hr : r ≤ 255 := hvp.1
  have hg : g ≤ 255 := hvp.2.1
  have hb : b ≤ 255 := hvp.2.2
  rw [show (Pix.mk r g b).r = r from rfl, show (Pix.mk r g b).g = g from rfl,
    show (Pix.mk r g b).b = b from rfl,
    gammaChan_one powFn hpow r hr, gammaChan_one powFn hpow g hg,
    gammaChan_one powFn hpow b hb]

theorem huePix_gray (p : Pix) (hg : GrayPix p) :
    (match rgb2hsv p with
     | (h, s, v) =>
        hsv2rgb (hueLUT ((((50 : ℕ) : ℚ) - 50) * (36 / 10)) h, s, v)) = p := by
  rcases p with ⟨r, g, b⟩
  have h1 : r = g := hg.1
  have h2 : g = b := hg.2
  subst h1
  subst h2
  have hhsv : rgb2hsv ⟨r, r, r⟩ = (0, 0, r) := by
    unfold rgb2hsv
    rw [if_pos (by simp)]
    simp
  rw [hhsv]
  have hshift : (((50 : ℕ) : ℚ) - 50) * (36 / 10) = 0 := by norm_num
  rw [hshift]
  have hlut : hueLUT 0 0 = 0 := by
    unfold hueLUT qtrunc
    norm_num
  show hsv2rgb (hueLUT 0 0, 0, r) = ⟨r, r, r⟩
  rw [hlut]
  rfl

theorem hueStage_neutral (img : Img Pix) (hg : GrayImg img) :
    ImgEq (hueStage 50 img) img := by
  refine ⟨rfl, rfl, ?_⟩
  intro x hx y hy
  have hx2 : x < img.width := hx
  have hy2 : y < img.height := hy
  exact huePix_gray (img.px x y) (hg x hx2 y hy2)

theorem temperaturePix_50 (p : Pix) (hv : ValidPix p) :
    temperaturePix 50 p = p := by
  rcases p with ⟨r, g, b⟩
  have hb : b ≤ 255 := hv.2.2
  unfold temperaturePix
  rw [if_neg (by norm_num)]
  rw [Pix.mk.injEq]
  refine ⟨rfl, rfl, ?_⟩
  simp only [min_def]
  split_ifs <;> omega

theorem temperatureStage_neutral (img : Img Pix) (hv : ValidImg img) :
    ImgEq (temperatureStage 50 img) img := by
  refine ⟨rfl, rfl, ?_⟩
  intro x hx y hy
  have hx2 : x < img.width := hx
  have hy2 : y < img.height := hy
  exact temperaturePix_50 (img.px x y) (hv x hx2 y hy2)

/-- C3 counterexample: with every tone slider at 50, the chain is not the
identity: on a 3×3 gray image (background 100, center 121) the sharpness
stage — whose factor at slider 50 is `50/10 + 1 = 6`, not 1 — changes the
center pixel (to 186: the SMOOTH-filtered center is
`⌊(8·100 + 5·121)/13⌋ = 108` and `108 + 6·(121 - 108) = 186`). -/
theorem C3_neutral_counterexample :
    ¬ ImgEq (toneChain powId 50 50 50 50 50 50 50 50 exTone) exTone := by
  decide

/-- C3 (amended): with every tone slider at 50, the exposure, gamma,
brightness, contrast, saturation, hue and temperature stages are all
pixel-neutral (for gray 8-bit images; gray avoids the lossy generic
HSV round trip, which a gray pixel bypasses exactly), but the sharpness
stage runs with factor `50/10 + 1 = 6`, so the chain equals the factor-6
sharpness enhancement of the blended input rather than the identity.
`powFn` is any model of the float `**` that is exact at exponent 1. -/
theorem C3_neutral_tone_chain (powFn : ℚ → ℚ → ℚ)
    (hpow : ∀ x : ℚ, powFn x 1 = x) (img : Img Pix)
    (hg : GrayImg img) (hv : ValidImg img) :
    ImgEq (toneChain powFn 50 50 50 50 50 50 50 50 img)
      (sharpnessStage 50 img) := by
  unfold toneChain enhanceColor enhanceContrast enhanceBrightness
  rw [show (((50 : ℕ) : ℚ)) / 50 = 1 by norm_num]
  simp only [blendImage_one]
  have h1 : ImgEq (gammaStage powFn 50 img) img :=
    gammaStage_neutral powFn hpow img hv
  have h2 : ImgEq (hueStage 50 (gammaStage powFn 50 img)) (hueStage 50 img) :=
    imgMap_congr _ _ _ h1.1 h1.2.1 h1.2.2
  have h3 : ImgEq (hueStage 50 (gammaStage powFn 50 img)) img :=
    ImgEq_trans _ _ _ h2 (hueStage_neutral img hg)
  have h4 : ImgEq (temperatureStage 50 (hueStage 50 (gammaStage powFn 50 img)))
      (temperatureStage 50 img) :=
    imgMap_congr _ _ _ h3.1 h3.2.1 h3.2.2
  have h5 : ImgEq (temperatureStage 50 (hueStage 50 (gammaStage powFn 50 img)))
      img :=
    ImgEq_trans _ _ _ h4 (temperatureStage_neutral img hv)
  exact sharpnessStage_congr 50 _ img h5.1 h5.2.1 h5.2.2

/-- Witness for C3 at the concrete gray 3×3 image, with the exact
exponent-1 power function. -/
theorem C3_neutral_tone_chain_witness :
    (∀ x : ℚ, powId x 1 = x) ∧ GrayImg exTone ∧ ValidImg exTone ∧
      ImgEq (toneChain powId 50 50 50 50 50 50 50 50 exTone)
        (sharpnessStage 50 exTone) :=
  ⟨fun x => rfl, by decide, by decide,
    C3_neutral_tone_chain powId (fun x => rfl) exTone (by decide) (by decide)⟩

theorem applyNoise_zero (img : Img Pix) (g1 g2 : ℕ → ℕ → ℚ × ℚ × ℚ) :
    applyNoise img 0 g1 = applyNoise img 0 g2 := by
  unfold applyNoise noiseChan
  congr 1
  funext x y
  norm_num [qtrunc, int16cast]

set_option maxHeartbeats 4000000 in
/-- C2 counterexample: with the noise filter enabled at intensity 10/100,
the output of the full adjustment computation depends on the draws taken
from the global NumPy random generator: two invocations that observe
different generator states (all-zero draws versus all-4σ draws) produce
different pixels on the same 1×1 input with the same parameter record, so
the pipeline is not a function of (base, styled, parameters) alone. -/
theorem C2_determinism_counterexample :
    ¬ ImgEq (adjust powId blurDummy exBase exBase exParamsNoise gZero gZero)
        (adjust powId blurDummy exBase exBase exParamsNoise gFour gZero) := by
  decide

/-- The noise stage ignores the generator draws when the filter is off or
its slider is 0 (a zero standard deviation makes every draw exactly 0). -/
theorem noiseStage_indep (P : Params) (g1 g2 : ℕ → ℕ → ℚ × ℚ × ℚ)
    (hn : P.noiseOn = false ∨ P.noise = 0) (img : Img Pix) :
    noiseStage P g1 img = noiseStage P g2 img := by
  unfold noiseStage
  rcases hn with h | h
  · rw [h]
    rw [if_neg (by decide), if_neg (by decide)]
  · rw [h]
    rw [show (((0 : ℕ) : ℚ)) / 100 = 0 by norm_num]
    rw [applyNoise_zero img g1 g2]

theorem textureStage_indep (P : Params) (blurFn : Img Pix → ℚ → Img Pix)
    (t1 t2 : ℕ → ℕ → ℚ × ℚ × ℚ)
    (ht : P.textureOn = false ∨ P.paperTexture = 0) (img : Img Pix) :
    textureStage P blurFn t1 img = textureStage P blurFn t2 img := by
  unfold textureStage
  rcases ht with h | h
  · rw [h]
    rw [if_neg (by decide), if_neg (by decide)]
  · rw [h]
    rw [if_neg (lt_irrefl 0), if_neg (lt_irrefl 0)]

/-- C2 (amended): for a fixed state of the random generator (fixed draw
streams) the pipeline is a pure function of its inputs, and whenever the
noise filter is disabled (or its slider is 0, which makes every draw exactly
zero) and the paper texture is disabled (or its slider is 0), the output is
independent of the random draws — so the parameter set fully determines the
output only in that case, not when noise or texture is enabled with positive
intensity. -/
theorem C2_determinism (powFn : ℚ → ℚ → ℚ) (blurFn : Img Pix → ℚ → Img Pix)
    (baseline styled : Img Pix) (P : Params)
    (g1 g2 t1 t2 : ℕ → ℕ → ℚ × ℚ × ℚ)
    (hn : P.noiseOn = false ∨ P.noise = 0)
    (ht : P.textureOn = false ∨ P.paperTexture = 0) :
    adjust powFn blurFn baseline styled P g1 t1 =
      adjust powFn blurFn baseline styled P g2 t2 := by
  unfold adjust
  rw [noiseStage_indep P g1 g2 hn, textureStage_indep P blurFn t1 t2 ht]

/-- Witness for C2 with all filters disabled: the output is independent of
the random streams. -/
theorem C2_determinism_witness :
    (exParamsPlain.noiseOn = false ∨ exParamsPlain.noise = 0) ∧
      (exParamsPlain.textureOn = false ∨ exParamsPlain.paperTexture = 0) ∧
      adjust powId blurDummy exBase exBase exParamsPlain gZero gZero =
        adjust powId blurDummy exBase exBase exParamsPlain gFour gFour :=
  ⟨Or.inl (by decide), Or.inl (by decide),
    C2_determinism powId blurDummy exBase exBase exParamsPlain gZero gFour
      gZero gFour (Or.inl (by decide)) (Or.inl (by decide))⟩

end ARTify
